import Mathlib

/-!
Verification of the two maintenance scripts in this repository:

* `auto/find-auto-dependa.py` (the "Repo Scanner"): lists repositories of a
  fixed set of owners that are not archived, not forks, and contain both an
  `.autorc` file and a `.github/dependabot.yml` file.
* `auto/reautolabel.py` (the "Label Rewriter"): renames the eight `auto`
  labels of a repository to carry a prefix, edits the local `.autorc`, and
  opens a pull request.

The scripts are embedded shallowly: the HTTP layer is a function from request
parameters to an abstract response, subprocess and API side effects are
recorded as a trace of operations, and failures abort processing exactly as an
uncaught Python exception would.
-/

/-! ## HTTP layer

An HTTP request either succeeds or raises a `PrettyHTTPError` carrying a
status code.  This models the `ghreq` client behaviour that both scripts rely
on. -/

/-- Outcome of a single HTTP request: success, or an HTTP error exception
carrying the response status code. -/
inductive HttpResult where
  | ok : HttpResult
  | httpError (status : Nat) : HttpResult
deriving DecidableEq, Repr

/-! ## Repo Scanner (`auto/find-auto-dependa.py`) -/

/-- The fixed owner list of `find-auto-dependa.py`, line 17. -/
def OWNERS : List String := ["con", "dandi", "datalad", "duecredit", "ReproNim"]

/-- A repository record as returned by the listing endpoint; only the fields
the scanner reads. -/
structure RepoRecord where
  full_name : String
  url : String
  archived : Bool
  fork : Bool
deriving DecidableEq, Repr

/-- Embedding of `Client.has_file` (lines 24-33): issue a HEAD request for
`repo_url/contents/path`; a 404 error is mapped to `false`, success to `true`,
and any other HTTP error is re-raised (modelled as `Except.error status`).
`http` gives the outcome of the HEAD request for a `(repo_url, path)` pair. -/
def has_file (http : String → String → HttpResult) (repo_url path : String) :
    Except Nat Bool :=
  match http repo_url path with
  | HttpResult.ok => Except.ok true
  | HttpResult.httpError s => if s = 404 then Except.ok false else Except.error s

/-- Embedding of one iteration of the scanner's inner loop (lines 38-44) for
one repository record.  Returns the existence-check requests issued (as
`(repo_url, path)` pairs, in order), the lines printed, and `some status` when
an HTTP error aborted the run. -/
def processRepo (http : String → String → HttpResult) (r : RepoRecord) :
    List (String × String) × List String × Option Nat :=
  if r.archived || r.fork then ([], [], none)
  else
    match has_file http r.url ".autorc" with
    | Except.error s => ([(r.url, ".autorc")], [], some s)
    | Except.ok false => ([(r.url, ".autorc")], [], none)
    | Except.ok true =>
      match has_file http r.url ".github/dependabot.yml" with
      | Except.error s =>
          ([(r.url, ".autorc"), (r.url, ".github/dependabot.yml")], [], some s)
      | Except.ok false =>
          ([(r.url, ".autorc"), (r.url, ".github/dependabot.yml")], [], none)
      | Except.ok true =>
          ([(r.url, ".autorc"), (r.url, ".github/dependabot.yml")],
           [r.full_name], none)

/-- Scanner inner loop over the repository records of one owner, in listing
order; an uncaught HTTP error aborts the whole run. -/
def scanRepos (http : String → String → HttpResult) :
    List RepoRecord → List (String × String) × List String × Option Nat
  | [] => ([], [], none)
  | r :: rest =>
    match processRepo http r with
    | (reqs, out, some s) => (reqs, out, some s)
    | (reqs, out, none) =>
      match scanRepos http rest with
      | (reqs2, out2, err2) => (reqs ++ reqs2, out ++ out2, err2)

/-- Scanner outer loop over a list of owners (lines 37-44); `repos` gives the
paginated listing for an owner, in the order the listing returns records. -/
def scanOwners (repos : String → List RepoRecord)
    (http : String → String → HttpResult) :
    List String → List (String × String) × List String × Option Nat
  | [] => ([], [], none)
  | o :: rest =>
    match scanRepos http (repos o) with
    | (reqs, out, some s) => (reqs, out, some s)
    | (reqs, out, none) =>
      match scanOwners repos http rest with
      | (reqs2, out2, err2) => (reqs ++ reqs2, out ++ out2, err2)

/-- The whole scanner run: the outer loop applied to the fixed owner list. -/
def scanAll (repos : String → List RepoRecord)
    (http : String → String → HttpResult) :
    List (String × String) × List String × Option Nat :=
  scanOwners repos http OWNERS

/-- The HTTP layer never produces a fatal (non-404) error. -/
def noFatal (http : String → String → HttpResult) : Prop :=
  ∀ u p s, http u p = HttpResult.httpError s → s = 404

/-- The printing condition of the scanner: not archived, not a fork, and both
existence checks succeed. -/
def qualifies (http : String → String → HttpResult) (r : RepoRecord) : Bool :=
  !r.archived && !r.fork &&
    (match has_file http r.url ".autorc" with
     | Except.ok true => true
     | _ => false) &&
    (match has_file http r.url ".github/dependabot.yml" with
     | Except.ok true => true
     | _ => false)

/-! ## Label Rewriter (`auto/reautolabel.py`) -/

/-- A JSON value, as read from and written to `.autorc`.  Objects keep their
fields in insertion order, matching Python dictionaries. -/
inductive JVal where
  | str (s : String) : JVal
  | num (n : Int) : JVal
  | bool (b : Bool) : JVal
  | null : JVal
  | arr (elems : List JVal) : JVal
  | obj (fields : List (String × JVal)) : JVal

/-- First-match lookup in a JSON object's field list (Python `config[k]`). -/
def lookupKey : List (String × JVal) → String → Option JVal
  | [], _ => none
  | (k, v) :: rest, k2 => if k = k2 then some v else lookupKey rest k2

/-- Python dictionary assignment `config[k] = v` on an insertion-ordered field
list: replace the value in place when the key is present, append otherwise. -/
def setKey : List (String × JVal) → String → JVal → List (String × JVal)
  | [], k, v => [(k, v)]
  | (k2, v2) :: rest, k, v =>
    if k2 = k then (k, v) :: rest else (k2, v2) :: setKey rest k v

/-- The fixed `(name, release type)` table of `reautolabel.py`, lines 29-38. -/
def LABELS : List (String × String) :=
  [("major", "major"),
   ("minor", "minor"),
   ("patch", "patch"),
   ("dependencies", "none"),
   ("documentation", "none"),
   ("internal", "none"),
   ("performance", "none"),
   ("tests", "none")]

/-- The branch name constant of `reautolabel.py`, line 40. -/
def PR_BRANCH : String := "auto-prefix-labels"

/-- The elements of the `labels` array the script builds on lines 96-98:
one `{name, releaseType}` object per `LABELS` entry, with the table's
(unprefixed) `name`. -/
def autorcLabels : List JVal :=
  LABELS.map fun l => JVal.obj [("name", JVal.str l.1), ("releaseType", JVal.str l.2)]

/-- The value assigned to `config["labels"]` on lines 96-98. -/
def labelsJson : JVal := JVal.arr autorcLabels

/-- The `.autorc` update of lines 95-99: parse the file, assign the `labels`
key, write the object back. -/
def rewriteConfig (cfg : List (String × JVal)) : List (String × JVal) :=
  setKey cfg "labels" labelsJson

/-- Modelled from the spec, for comparison with `autorcLabels`: the spec's
expected `labels` array, in which each entry's `name` is the prefix
concatenated with the original label name and `releaseType` is the table's
release type. -/
def specAutorcLabels (pfx : String) : List JVal :=
  LABELS.map fun l =>
    JVal.obj [("name", JVal.str (pfx ++ l.1)), ("releaseType", JVal.str l.2)]

/-- Repository metadata as fetched on line 72; only the fields the script
reads: the default branch, the owner's login, and the parent's full name when
the repository is a fork (`none` otherwise). -/
structure RepoData where
  default_branch : String
  owner_login : String
  parent : Option String
deriving DecidableEq, Repr

/-- Lines 74-80: when the metadata has a parent, record the owner login as the
head owner and redirect operations to the parent's full name; otherwise keep
the locally resolved repository and no head owner. -/
def targetOf (localRepo : String) (rd : RepoData) : Option String × String :=
  match rd.parent with
  | some parentFull => (some rd.owner_login, parentFull)
  | none => (none, localRepo)

/-- Lines 110-114: the pull-request `head` field, `owner:branch` when a head
owner was recorded and the bare branch name otherwise. -/
def headOf : Option String → String
  | some o => o ++ ":" ++ PR_BRANCH
  | none => PR_BRANCH

/-- The pull-request title built on line 57 (`{prefix!r}` rendered as a
single-quoted string, as Python `repr` does for quote-free prefixes). -/
def prTitle (pfx : String) : String :=
  "Prefix auto labels with " ++ "\x27" ++ pfx ++ "\x27"

/-- One side-effecting operation of the Label Rewriter, in the order the
script performs them: the metadata fetch, a label-rename PATCH, a git
subprocess invocation, the `.autorc` write, or the pull-request POST. -/
inductive Op where
  | getRepo (repo : String) : Op
  | patchLabel (repo : String) (label : String) (new_name : String) : Op
  | git (args : List String) : Op
  | writeAutorc (config : List (String × JVal)) : Op
  | postPR (repo : String) (head : String) (base : String) (title : String) : Op

/-- The GitHub API path of an operation, when it is an API request: the
metadata fetch uses the singular `/repo/` prefix (line 72), label renames use
`/repos/{repo}/labels/{label}` (line 86) and the pull-request creation uses
`/repos/{repo}/pulls` (line 107). -/
def apiPath : Op → Option String
  | Op.getRepo r => some ("/repo/" ++ r)
  | Op.patchLabel r l _ => some ("/repos/" ++ r ++ "/labels/" ++ l)
  | Op.postPR r _ _ _ => some ("/repos/" ++ r ++ "/pulls")
  | _ => none

/-- The fields of a label-rename request: target repository, label renamed,
new name sent in the PATCH body. -/
def patchInfo : Op → Option (String × String × String)
  | Op.patchLabel r l n => some (r, l, n)
  | _ => none

/-- The target repository and `head` field of a pull-request creation. -/
def prInfo : Op → Option (String × String)
  | Op.postPR r h _ _ => some (r, h)
  | _ => none

/-- The operation sequence of lines 81-119 for one directory, after the
metadata fetch returned `rd`: the eight label renames, the branch checkout,
the `.autorc` rewrite, the commit, the push, and the pull-request creation. -/
def dirSteps (pfx localRepo : String) (rd : RepoData)
    (cfg : List (String × JVal)) : List Op :=
  let t := targetOf localRepo rd
  (LABELS.map fun l => Op.patchLabel t.2 l.1 (pfx ++ l.1))
    ++ [Op.git ["checkout", "-b", PR_BRANCH, rd.default_branch],
        Op.writeAutorc (rewriteConfig cfg),
        Op.git ["commit", "-m", prTitle pfx, ".autorc"],
        Op.git ["push", "--set-upstream", "origin", PR_BRANCH],
        Op.postPR t.2 (headOf t.1) rd.default_branch (prTitle pfx)]

/-- The environment of one Label Rewriter run: `resolve` is
`get_local_repo` (directory to `owner/name`), `getRepo` the outcome of the
metadata fetch, `run` the outcome of each side-effecting operation, and
`autorc` the parsed `.autorc` contents of a directory. -/
structure Env where
  resolve : String → String
  getRepo : String → Except String RepoData
  run : Op → Except String Unit
  autorc : String → List (String × JVal)

/-- Perform a list of operations in order, stopping at the first failure
(an uncaught exception).  Returns the operations actually performed and the
final outcome. -/
def runSteps (run : Op → Except String Unit) : List Op → List Op × Except String Unit
  | [] => ([], Except.ok ())
  | s :: rest =>
    match run s with
    | Except.error e => ([s], Except.error e)
    | Except.ok _ =>
      (s :: (runSteps run rest).1, (runSteps run rest).2)

/-- The body of the `for d in dirs` loop (lines 68-120) for one directory:
resolve the local repository, fetch its metadata, then perform `dirSteps`.
Returns the trace of operations and the outcome. -/
def processDir (env : Env) (pfx d : String) : List Op × Except String Unit :=
  match env.getRepo (env.resolve d) with
  | Except.error e => ([Op.getRepo (env.resolve d)], Except.error e)
  | Except.ok rd =>
    (Op.getRepo (env.resolve d) ::
       (runSteps env.run (dirSteps pfx (env.resolve d) rd (env.autorc d))).1,
     (runSteps env.run (dirSteps pfx (env.resolve d) rd (env.autorc d))).2)

/-- The whole loop over the input directories: sequential, and an error while
processing one directory terminates the run without touching the rest. -/
def processDirs (env : Env) (pfx : String) :
    List String → List (String × Op) × Except String Unit
  | [] => ([], Except.ok ())
  | d :: rest =>
    match processDir env pfx d with
    | (ops, Except.error e) => (ops.map fun op => (d, op), Except.error e)
    | (ops, Except.ok _) =>
      match processDirs env pfx rest with
      | (ops2, res) => ((ops.map fun op => (d, op)) ++ ops2, res)

/-! ## Helper lemmas -/

/-- Under a fatal-error-free HTTP layer, `has_file` never raises. -/
theorem hasFile_noFatal (http : String → String → HttpResult) (h : noFatal http)
    (u p : String) : ∀ s, has_file http u p ≠ Except.error s := by
  intro s
  unfold has_file
  cases hh : http u p with
  | ok => simp
  | httpError st =>
    have h404 := h u p st hh
    simp [h404]

/-- Under a fatal-error-free HTTP layer, one scanner iteration prints the
repository's full name exactly when it qualifies, and never aborts. -/
theorem processRepo_out (http : String → String → HttpResult) (h : noFatal http)
    (r : RepoRecord) :
    (processRepo http r).2 =
      ((if qualifies http r then [r.full_name] else []), none) := by
  cases ha : r.archived with
  | true => simp [processRepo, qualifies, ha]
  | false =>
    cases hf : r.fork with
    | true => simp [processRepo, qualifies, ha, hf]
    | false =>
      cases h1 : has_file http r.url ".autorc" with
      | error s => exact absurd h1 (hasFile_noFatal http h r.url ".autorc" s)
      | ok b =>
        cases b with
        | false => simp [processRepo, qualifies, ha, hf, h1]
        | true =>
          cases h2 : has_file http r.url ".github/dependabot.yml" with
          | error s =>
            exact absurd h2 (hasFile_noFatal http h r.url ".github/dependabot.yml" s)
          | ok b2 =>
            cases b2 with
            | false => simp [processRepo, qualifies, ha, hf, h1, h2]
            | true => simp [processRepo, qualifies, ha, hf, h1, h2]

/-- Under a fatal-error-free HTTP layer, the scanner's inner loop prints the
qualifying repositories in listing order. -/
theorem scanRepos_out (http : String → String → HttpResult) (h : noFatal http)
    (rs : List RepoRecord) :
    (scanRepos http rs).2 =
      (rs.filterMap (fun r => if qualifies http r then some r.full_name else none),
       none) := by
  induction rs with
  | nil => simp [scanRepos]
  | cons r rest ih =>
    have hp := processRepo_out http h r
    rcases hpr : processRepo http r with ⟨reqs, out, err⟩
    rw [hpr] at hp
    injection hp with hout herr
    subst hout
    subst herr
    rcases hrec : scanRepos http rest with ⟨reqs2, out2, err2⟩
    rw [hrec] at ih
    injection ih with hout2 herr2
    subst hout2
    subst herr2
    cases hq : qualifies http r with
    | true => simp [scanRepos, hpr, hrec, hq, List.filterMap_cons]
    | false => simp [scanRepos, hpr, hrec, hq, List.filterMap_cons]

/-- Under a fatal-error-free HTTP layer, the scanner's outer loop prints
owners' qualifying repositories in owner order. -/
theorem scanOwners_out (repos : String → List RepoRecord)
    (http : String → String → HttpResult) (h : noFatal http)
    (os : List String) :
    (scanOwners repos http os).2 =
      ((os.map fun o =>
          (repos o).filterMap fun r =>
            if qualifies http r then some r.full_name else none).flatten,
       none) := by
  induction os with
  | nil => simp [scanOwners]
  | cons o rest ih =>
    have hp := scanRepos_out http h (repos o)
    rcases hpr : scanRepos http (repos o) with ⟨reqs, out, err⟩
    rw [hpr] at hp
    injection hp with hout herr
    subst hout
    subst herr
    rcases hrec : scanOwners repos http rest with ⟨reqs2, out2, err2⟩
    rw [hrec] at ih
    injection ih with hout2 herr2
    subst hout2
    subst herr2
    simp [scanOwners, hpr, hrec]

/-! ## Claims about the Repo Scanner -/

/-- C3: the existence check returns `false` exactly when the HEAD request
raises an HTTP error with status 404, returns `true` when the request
succeeds, and re-raises any HTTP error with a status other than 404. -/
theorem C3_has_file_404_contract (http : String → String → HttpResult)
    (u p : String) :
    (has_file http u p = Except.ok false ↔ http u p = HttpResult.httpError 404) ∧
    (http u p = HttpResult.ok → has_file http u p = Except.ok true) ∧
    (∀ s, http u p = HttpResult.httpError s → s ≠ 404 →
      has_file http u p = Except.error s) := by
  refine ⟨?_, ?_, ?_⟩
  · unfold has_file
    cases hh : http u p with
    | ok => simp
    | httpError s =>
      by_cases hs : s = 404 <;> simp [hs]
  · intro hh
    unfold has_file
    rw [hh]
  · intro s hh hs
    unfold has_file
    rw [hh]
    simp [hs]

/-- Witness for C3 at concrete request outcomes: a 404 yields `false`,
success yields `true`, a 500 is re-raised. -/
theorem C3_has_file_404_contract_witness :
    has_file (fun _ _ => HttpResult.httpError 404) "u" ".autorc" = Except.ok false ∧
    has_file (fun _ _ => HttpResult.ok) "u" ".autorc" = Except.ok true ∧
    has_file (fun _ _ => HttpResult.httpError 500) "u" ".autorc" = Except.error 500 := by
  refine ⟨?_, ?_, ?_⟩
  · exact (C3_has_file_404_contract (fun _ _ => HttpResult.httpError 404)
      "u" ".autorc").1.mpr rfl
  · exact (C3_has_file_404_contract (fun _ _ => HttpResult.ok)
      "u" ".autorc").2.1 rfl
  · exact (C3_has_file_404_contract (fun _ _ => HttpResult.httpError 500)
      "u" ".autorc").2.2 500 rfl (by decide)

/-- C4: one scanner iteration prints the repository's full name exactly when
the record is not archived, not a fork, and both existence checks return
`true`; an archived or forked record triggers no existence check and no
output. -/
theorem C4_print_condition (http : String → String → HttpResult)
    (r : RepoRecord) :
    ((processRepo http r).2.1 = [r.full_name] ↔
      (r.archived = false ∧ r.fork = false ∧
        has_file http r.url ".autorc" = Except.ok true ∧
        has_file http r.url ".github/dependabot.yml" = Except.ok true)) ∧
    (r.archived = true ∨ r.fork = true → processRepo http r = ([], [], none)) := by
  constructor
  · cases ha : r.archived with
    | true => simp [processRepo, ha]
    | false =>
      cases hf : r.fork with
      | true => simp [processRepo, ha, hf]
      | false =>
        cases h1 : has_file http r.url ".autorc" with
        | error s => simp [processRepo, ha, hf, h1]
        | ok b =>
          cases b with
          | false => simp [processRepo, ha, hf, h1]
          | true =>
            cases h2 : has_file http r.url ".github/dependabot.yml" with
            | error s => simp [processRepo, ha, hf, h1, h2]
            | ok b2 =>
              cases b2 with
              | false => simp [processRepo, ha, hf, h1, h2]
              | true => simp [processRepo, ha, hf, h1, h2]
  · intro h
    rcases h with h | h <;> simp [processRepo, h]

/-- Witness for C4: with every file present, a plain repository is printed,
and an archived one is skipped without any request. -/
theorem C4_print_condition_witness :
    (processRepo (fun _ _ => HttpResult.ok)
      { full_name := "con/a", url := "ua", archived := false, fork := false }).2.1 =
      ["con/a"] ∧
    processRepo (fun _ _ => HttpResult.ok)
      { full_name := "con/b", url := "ub", archived := true, fork := false } =
      ([], [], none) := by
  constructor
  · exact (C4_print_condition (fun _ _ => HttpResult.ok)
      { full_name := "con/a", url := "ua", archived := false, fork := false }).1.mpr
      ⟨rfl, rfl, rfl, rfl⟩
  · exact (C4_print_condition (fun _ _ => HttpResult.ok)
      { full_name := "con/b", url := "ub", archived := true, fork := false }).2
      (Or.inl rfl)

/-- C9: when a non-archived, non-fork repository's `.autorc` check returns
`false`, the `.github/dependabot.yml` check is never issued: the only request
of that iteration is the `.autorc` one. -/
theorem C9_short_circuit (http : String → String → HttpResult) (r : RepoRecord)
    (h1 : r.archived = false) (h2 : r.fork = false)
    (h3 : has_file http r.url ".autorc" = Except.ok false) :
    (processRepo http r).1 = [(r.url, ".autorc")] := by
  simp [processRepo, h1, h2, h3]

/-- Witness for C9 at a repository whose `.autorc` HEAD request yields 404:
only the `.autorc` request is issued. -/
theorem C9_short_circuit_witness :
    (processRepo (fun _ _ => HttpResult.httpError 404)
      { full_name := "con/c", url := "uc", archived := false, fork := false }).1 =
      [("uc", ".autorc")] := by
  exact C9_short_circuit (fun _ _ => HttpResult.httpError 404)
    { full_name := "con/c", url := "uc", archived := false, fork := false }
    rfl rfl rfl

/-- C8: in an error-free run, the scanner's output is the concatenation, over
the owners `con`, `dandi`, `datalad`, `duecredit`, `ReproNim` in that fixed
order, of each owner's qualifying repositories in exactly the order the
paginated listing returns them. -/
theorem C8_output_order (repos : String → List RepoRecord)
    (http : String → String → HttpResult) (h : noFatal http) :
    (scanAll repos http).2.1 =
      (OWNERS.map fun o =>
        (repos o).filterMap fun r =>
          if qualifies http r then some r.full_name else none).flatten ∧
    OWNERS = ["con", "dandi", "datalad", "duecredit", "ReproNim"] := by
  constructor
  · have hh := scanOwners_out repos http h OWNERS
    unfold scanAll
    rw [hh]
  · rfl

/-- Witness for C8: two owners with one qualifying repository each are printed
in owner order. -/
theorem C8_output_order_witness :
    (scanAll
      (fun o =>
        if o = "con" then
          [{ full_name := "con/a", url := "u1", archived := false, fork := false }]
        else if o = "dandi" then
          [{ full_name := "dandi/b", url := "u2", archived := false, fork := false }]
        else [])
      (fun _ _ => HttpResult.ok)).2.1 = ["con/a", "dandi/b"] := by
  rw [(C8_output_order
    (fun o =>
      if o = "con" then
        [{ full_name := "con/a", url := "u1", archived := false, fork := false }]
      else if o = "dandi" then
        [{ full_name := "dandi/b", url := "u2", archived := false, fork := false }]
      else [])
    (fun _ _ => HttpResult.ok) (fun _ _ _ hh => nomatch hh)).1]
  rfl

/-! ## Helper lemmas for the Label Rewriter -/

/-- A successful `runSteps` performed every step. -/
theorem runSteps_ok_trace (run : Op → Except String Unit) :
    ∀ steps, (runSteps run steps).2 = Except.ok () → (runSteps run steps).1 = steps := by
  intro steps
  induction steps with
  | nil => intro _; rfl
  | cons s rest ih =>
    intro h
    cases hr : run s with
    | error e =>
      rw [runSteps, hr] at h
      exact absurd h (by simp)
    | ok u =>
      cases u
      rw [runSteps, hr] at h ⊢
      simp only at h ⊢
      rw [ih h]

/-- The `runSteps` trace is an initial segment of the requested steps: once a
step fails, no later step is performed. -/
theorem runSteps_trace_initial (run : Op → Except String Unit) :
    ∀ steps, ∃ t, (runSteps run steps).1 ++ t = steps := by
  intro steps
  induction steps with
  | nil => exact ⟨[], rfl⟩
  | cons s rest ih =>
    cases hr : run s with
    | error e => exact ⟨rest, by rw [runSteps, hr]; rfl⟩
    | ok u =>
      cases u
      obtain ⟨t, ht⟩ := ih
      exact ⟨t, by rw [runSteps, hr]; simp only [List.cons_append, ht]⟩

/-- A successful directory run performed the metadata fetch followed by the
whole step sequence. -/
theorem processDir_ok (env : Env) (pfx d : String) (rd : RepoData)
    (h1 : env.getRepo (env.resolve d) = Except.ok rd)
    (h2 : (processDir env pfx d).2 = Except.ok ()) :
    (processDir env pfx d).1 =
      Op.getRepo (env.resolve d) ::
        dirSteps pfx (env.resolve d) rd (env.autorc d) := by
  unfold processDir at h2 ⊢
  rw [h1] at h2 ⊢
  simp only at h2 ⊢
  rw [runSteps_ok_trace env.run _ h2]

/-! ## Claims about the Label Rewriter -/

/-- C6: when processing one directory fails (metadata fetch, a label rename,
a git invocation, or the pull-request creation), the run terminates with that
error: no operation is performed for any subsequent directory, and within the
failing directory the trace is an initial segment of the step sequence, so no
later step of that directory runs either. -/
theorem C6_fatal_error_aborts (env : Env) (pfx d : String) (rest : List String)
    (e : String) (h : (processDir env pfx d).2 = Except.error e) :
    processDirs env pfx (d :: rest) =
      ((processDir env pfx d).1.map fun op => (d, op), Except.error e) ∧
    ∀ rd, env.getRepo (env.resolve d) = Except.ok rd →
      ∃ t, (processDir env pfx d).1 ++ t =
        Op.getRepo (env.resolve d) ::
          dirSteps pfx (env.resolve d) rd (env.autorc d) := by
  constructor
  · rcases hpd : processDir env pfx d with ⟨ops, res⟩
    rw [hpd] at h
    simp only at h
    subst h
    simp [processDirs, hpd]
  · intro rd hrd
    obtain ⟨t, ht⟩ :=
      runSteps_trace_initial env.run (dirSteps pfx (env.resolve d) rd (env.autorc d))
    refine ⟨t, ?_⟩
    unfold processDir
    rw [hrd]
    simp only [List.cons_append, ht]

/-- Witness environment for C6: the metadata fetch succeeds on a non-fork
repository and the first label rename fails. -/
def envC6 : Env where
  resolve := fun _ => "octo/repo"
  getRepo := fun _ =>
    Except.ok { default_branch := "main", owner_login := "octo", parent := none }
  run := fun op =>
    match op with
    | Op.patchLabel _ _ _ => Except.error "boom"
    | _ => Except.ok ()
  autorc := fun _ => []

/-- Witness for C6: with two directories and a failing first rename, the run
stops after the metadata fetch and the failed rename of the first directory. -/
theorem C6_fatal_error_aborts_witness :
    processDirs envC6 "x-" ["a", "b"] =
      ([("a", Op.getRepo "octo/repo"),
        ("a", Op.patchLabel "octo/repo" "major" "x-major")],
       Except.error "boom") := by
  rw [(C6_fatal_error_aborts envC6 "x-" "a" ["b"] "boom" rfl).1]
  rfl

/-- Splitting a four-part concatenation after its first part. -/
theorem exists_tail_append4 (a b c d : String) : ∃ s, a ++ b ++ c ++ d = a ++ s :=
  ⟨b ++ c ++ d, by simp [String.append_assoc]⟩

/-- Splitting a three-part concatenation after its first part. -/
theorem exists_tail_append3 (a b c : String) : ∃ s, a ++ b ++ c = a ++ s :=
  ⟨b ++ c, by simp [String.append_assoc]⟩

/-- C5: a successful directory run issues exactly eight label-rename PATCH
requests, one per entry of the fixed table, each renaming the table's `name`
to the prefix concatenated with that name, and the label `release` is never
renamed. -/
theorem C5_eight_label_renames (env : Env) (pfx d : String) (rd : RepoData)
    (h1 : env.getRepo (env.resolve d) = Except.ok rd)
    (h2 : (processDir env pfx d).2 = Except.ok ()) :
    (processDir env pfx d).1.filterMap patchInfo =
      LABELS.map (fun l => ((targetOf (env.resolve d) rd).2, l.1, pfx ++ l.1)) ∧
    ((processDir env pfx d).1.filterMap patchInfo).length = 8 ∧
    "release" ∉ ((processDir env pfx d).1.filterMap patchInfo).map
      (fun t => t.2.1) := by
  rw [processDir_ok env pfx d rd h1 h2]
  refine ⟨?_, ?_, ?_⟩
  · simp [dirSteps, LABELS, patchInfo]
  · simp [dirSteps, LABELS, patchInfo]
  · simp [dirSteps, LABELS, patchInfo]

/-- Witness environment for C5, C10: every operation succeeds and the
repository is not a fork. -/
def envOkNoFork : Env where
  resolve := fun _ => "octo/repo"
  getRepo := fun _ =>
    Except.ok { default_branch := "main", owner_login := "octo", parent := none }
  run := fun _ => Except.ok ()
  autorc := fun _ => []

/-- Witness for C5 at a concrete successful run: eight renames, none of them
touching `release`. -/
theorem C5_eight_label_renames_witness :
    ((processDir envOkNoFork "x-" "d").1.filterMap patchInfo).length = 8 ∧
    "release" ∉ ((processDir envOkNoFork "x-" "d").1.filterMap patchInfo).map
      (fun t => t.2.1) := by
  have h := C5_eight_label_renames envOkNoFork "x-" "d"
    { default_branch := "main", owner_login := "octo", parent := none } rfl rfl
  exact ⟨h.2.1, h.2.2⟩

/-- C2: in a successful directory run on a fork with parent full name `P` and
owner login `L`, all eight rename requests target `P` and the pull-request
head is `L ++ ":auto-prefix-labels"`; on a non-fork, the renames target the
locally resolved repository and the head is the bare `"auto-prefix-labels"`. -/
theorem C2_fork_redirect (env : Env) (pfx d : String) (rd : RepoData)
    (h1 : env.getRepo (env.resolve d) = Except.ok rd)
    (h2 : (processDir env pfx d).2 = Except.ok ()) :
    (∀ P, rd.parent = some P →
      ((processDir env pfx d).1.filterMap patchInfo).map (fun t => t.1) =
          List.replicate 8 P ∧
        (processDir env pfx d).1.filterMap prInfo =
          [(P, rd.owner_login ++ ":auto-prefix-labels")]) ∧
    (rd.parent = none →
      ((processDir env pfx d).1.filterMap patchInfo).map (fun t => t.1) =
          List.replicate 8 (env.resolve d) ∧
        (processDir env pfx d).1.filterMap prInfo =
          [(env.resolve d, "auto-prefix-labels")]) := by
  rw [processDir_ok env pfx d rd h1 h2]
  constructor
  · intro P hP
    constructor
    · have hrep : List.replicate 8 P = [P, P, P, P, P, P, P, P] := rfl
      rw [hrep]
      simp [dirSteps, LABELS, patchInfo, targetOf, hP]
    · simp [dirSteps, LABELS, patchInfo, prInfo, targetOf, headOf, hP, PR_BRANCH,
        String.append_assoc]
  · intro hP
    constructor
    · have hrep : List.replicate 8 (env.resolve d) =
          [env.resolve d, env.resolve d, env.resolve d, env.resolve d,
           env.resolve d, env.resolve d, env.resolve d, env.resolve d] := rfl
      rw [hrep]
      simp [dirSteps, LABELS, patchInfo, targetOf, hP]
    · simp [dirSteps, LABELS, patchInfo, prInfo, targetOf, headOf, hP, PR_BRANCH]

/-- Witness environment for C2: every operation succeeds and the repository
is a fork of `acme/base` owned by `alice`. -/
def envOkFork : Env where
  resolve := fun _ => "alice/base"
  getRepo := fun _ =>
    Except.ok
      { default_branch := "main", owner_login := "alice", parent := some "acme/base" }
  run := fun _ => Except.ok ()
  autorc := fun _ => []

/-- Witness for C2 at concrete fork and non-fork runs. -/
theorem C2_fork_redirect_witness :
    (processDir envOkFork "x-" "d").1.filterMap prInfo =
      [("acme/base", "alice:auto-prefix-labels")] ∧
    ((processDir envOkFork "x-" "d").1.filterMap patchInfo).map (fun t => t.1) =
      List.replicate 8 "acme/base" ∧
    (processDir envOkNoFork "y-" "e").1.filterMap prInfo =
      [("octo/repo", "auto-prefix-labels")] := by
  have hf := (C2_fork_redirect envOkFork "x-" "d"
    { default_branch := "main", owner_login := "alice", parent := some "acme/base" }
    rfl rfl).1 "acme/base" rfl
  have hn := (C2_fork_redirect envOkNoFork "y-" "e"
    { default_branch := "main", owner_login := "octo", parent := none }
    rfl rfl).2 rfl
  exact ⟨hf.2, hf.1, hn.2⟩

/-- C10: in a successful directory run, the first request is the metadata
fetch at the singular path `/repo/` followed by the resolved repository,
while every other API request of the run uses a path starting with
`/repos/`. -/
theorem C10_singular_repo_path (env : Env) (pfx d : String) (rd : RepoData)
    (h1 : env.getRepo (env.resolve d) = Except.ok rd)
    (h2 : (processDir env pfx d).2 = Except.ok ()) :
    (processDir env pfx d).1.head? = some (Op.getRepo (env.resolve d)) ∧
    apiPath (Op.getRepo (env.resolve d)) = some ("/repo/" ++ env.resolve d) ∧
    ∀ op ∈ (processDir env pfx d).1.tail, ∀ q, apiPath op = some q →
      ∃ s, q = "/repos/" ++ s := by
  rw [processDir_ok env pfx d rd h1 h2]
  refine ⟨rfl, rfl, ?_⟩
  intro op hop q hq
  simp only [List.tail_cons] at hop
  simp [dirSteps, LABELS] at hop
  rcases hop with rfl | rfl | rfl | rfl | rfl | rfl | rfl | rfl | rfl | rfl | rfl
    | rfl | rfl
  all_goals simp only [apiPath] at hq
  all_goals
    first
      | exact Option.noConfusion hq
      | (injection hq with hq2
         rw [← hq2]
         first
           | exact exists_tail_append4 "/repos/" _ "/labels/" _
           | exact exists_tail_append3 "/repos/" _ "/pulls")

/-- Witness for C10 at a concrete successful run: the metadata request path
uses `/repo/` and the first rename path uses `/repos/`. -/
theorem C10_singular_repo_path_witness :
    (processDir envOkNoFork "x-" "f").1.head? = some (Op.getRepo "octo/repo") ∧
    apiPath (Op.getRepo "octo/repo") = some "/repo/octo/repo" := by
  have h := C10_singular_repo_path envOkNoFork "x-" "f"
    { default_branch := "main", owner_login := "octo", parent := none } rfl rfl
  exact ⟨h.1, h.2.1⟩

/-- Assigning a key makes lookup of that key return the assigned value. -/
theorem lookupKey_setKey_self (cfg : List (String × JVal)) (k : String) (v : JVal) :
    lookupKey (setKey cfg k v) k = some v := by
  induction cfg with
  | nil => simp [setKey, lookupKey]
  | cons p rest ih =>
    rcases p with ⟨k2, v2⟩
    by_cases h : k2 = k
    · simp [setKey, lookupKey, h]
    · simp [setKey, lookupKey, h, ih]

/-- Assigning a key leaves lookup of every other key unchanged. -/
theorem lookupKey_setKey_other (cfg : List (String × JVal)) (k k2 : String)
    (v : JVal) (h : k2 ≠ k) :
    lookupKey (setKey cfg k v) k2 = lookupKey cfg k2 := by
  induction cfg with
  | nil => simp [setKey, lookupKey, Ne.symm h]
  | cons p rest ih =>
    rcases p with ⟨k3, v3⟩
    by_cases h3 : k3 = k
    · subst h3
      simp [setKey, lookupKey, Ne.symm h]
    · simp only [setKey, if_neg h3, lookupKey]
      by_cases h32 : k3 = k2
      · simp [h32]
      · simp [h32, ih]

/-- C7: the configuration object written back maps every key other than
`labels` to the same value as the input object, and maps `labels` to the
generated array (adding the key, or overwriting it when present). -/
theorem C7_config_frame (cfg : List (String × JVal)) (k : String)
    (h : k ≠ "labels") :
    lookupKey (rewriteConfig cfg) k = lookupKey cfg k ∧
    lookupKey (rewriteConfig cfg) "labels" = some labelsJson :=
  ⟨lookupKey_setKey_other cfg "labels" k labelsJson h,
   lookupKey_setKey_self cfg "labels" labelsJson⟩

/-- Witness for C7 at a concrete configuration: an unrelated key keeps its
value and `labels` is set. -/
theorem C7_config_frame_witness :
    lookupKey (rewriteConfig [("author", JVal.str "me")]) "author" =
      some (JVal.str "me") ∧
    lookupKey (rewriteConfig [("author", JVal.str "me")]) "labels" =
      some labelsJson := by
  have h := C7_config_frame [("author", JVal.str "me")] "author" (by decide)
  exact ⟨h.1.trans rfl, h.2⟩

/-- C1 (code evaluation at the failing input): with prefix `"x-"`, the first
entry of the `labels` array the script writes into `.autorc` has `name`
`"major"`, not the `"x-major"` the claim requires: lines 96-98 build the
array from the unprefixed table names, while the spec's array (and the rename
requests of line 86) use the prefixed names. -/
theorem C1_autorc_names_unprefixed :
    autorcLabels.head? =
      some (JVal.obj [("name", JVal.str "major"), ("releaseType", JVal.str "major")]) ∧
    (specAutorcLabels "x-").head? =
      some (JVal.obj [("name", JVal.str "x-major"), ("releaseType", JVal.str "major")]) ∧
    ("major" : String) ≠ "x-major" ∧
    autorcLabels.length = 8 ∧
    lookupKey (rewriteConfig []) "labels" = some (JVal.arr autorcLabels) :=
  ⟨rfl, rfl, by decide, rfl, rfl⟩
